import Mathlib

/-!
Verification of the property-derivation core (`src/generate.rs`, `src/lib.rs`):
the type classifier `FieldType::from_type`, the getter selector
`GetType::from_field_type`, the clear-method selector `ClrMethod::from_field_type`
and its scope adjustment, the setter-body selection, the ordering/equality
synthesis `implement_traits`, and the `property_default` entry-point check.

Rust panics (`panic!`, `unreachable!`, out-of-bounds indexing) are modelled by
`Option.none` / `Except.error`: a function that can panic returns an `Option`
or `Except` and yields `none` / `.error` exactly on the inputs where the Rust
code would abort.
-/

/-- Model of `syn::GenericArgument`: either a type argument or any other kind
of generic argument (lifetime, const, binding, constraint). Parametrised by
the type of types so the nested inductive below is accepted. -/
inductive GenArg (τ : Type) where
  | type (t : τ)
  | other
deriving Repr

/-- Model of `syn::PathArguments`: none, angle-bracketed argument list, or
parenthesized arguments. -/
inductive PathArgs (τ : Type) where
  | none
  | angleBracketed (args : List (GenArg τ))
  | parenthesized
deriving Repr

/-- Model of `syn::PathSegment`: an identifier plus its path arguments. -/
structure PathSeg (τ : Type) where
  ident : String
  arguments : PathArgs τ
deriving Repr

/-- Model of `syn::Type`, restricted to the shapes `FieldType::from_type`
distinguishes: a path type (list of segments), an array type (element and
length), and every other type form (`syn::Type::...` wildcard arm). -/
inductive SynType where
  | path (segments : List (PathSeg SynType))
  | array (elem : SynType) (len : Nat)
  | other
deriving Repr

abbrev GenericArgument := GenArg SynType
abbrev PathSegment := PathSeg SynType

/-- `FieldType` from `src/generate.rs`: the closed semantic category of a
declared field type. `Array` keeps the element and length of the
`syn::TypeArray`, `Vector` the single type argument, `Option_` the full raw
angle-bracketed argument list, `Unhandled` the extracted identifier if any. -/
inductive FieldType where
  | Number
  | Boolean
  | Character
  | String_
  | Array (elem : SynType) (len : Nat)
  | Vector (inner : SynType)
  | Option_ (args : List GenericArgument)
  | Unhandled (name : Option String)
deriving Repr

/-- `FieldType::from_type` from `src/generate.rs` (lines 96–144).
The `unreachable!()` arms and the `inner.args[0]` indexing panic are modelled
as `Option.none`; every non-panicking path yields `some` category. -/
def FieldType.from_type : SynType → Option FieldType
  | SynType.path segs =>
    match segs with
    | [] => some (FieldType.Unhandled Option.none)
    | seg0 :: rest =>
      match seg0.ident with
      | "f32" | "f64" => some FieldType.Number
      | "i8" | "i16" | "i32" | "i64" | "i128" | "isize" => some FieldType.Number
      | "u8" | "u16" | "u32" | "u64" | "u128" | "usize" => some FieldType.Number
      | "bool" => some FieldType.Boolean
      | "char" => some FieldType.Character
      | "String" => some FieldType.String_
      | "Vec" =>
        match seg0.arguments with
        | PathArgs.angleBracketed args =>
          match args with
          | GenArg.type inner :: _ => some (FieldType.Vector inner)
          | GenArg.other :: _ => Option.none
          | [] => Option.none
        | _ => Option.none
      | "Option" =>
        match seg0.arguments with
        | PathArgs.angleBracketed args => some (FieldType.Option_ args)
        | _ => Option.none
      | _ =>
        some (FieldType.Unhandled
          (some ((seg0 :: rest).getLast (List.cons_ne_nil seg0 rest)).ident))
  | SynType.array elem len => some (FieldType.Array elem len)
  | SynType.other => some (FieldType.Unhandled Option.none)

/-- `GetType` from `src/generate.rs`: the selected getter shape. `Slice` keeps
the element type of the produced `syn::TypeSlice`; `Option_` the full raw
argument list. -/
inductive GetType where
  | Ref
  | Copy_
  | Clone_
  | String_
  | Slice (elem : SynType)
  | Option_ (args : List GenericArgument)
deriving Repr

/-- Size bound used for the termination of `GetType.from_field_type`:
a successful classification of `t` is not much larger than `t` itself. -/
theorem sizeOf_ident_lt (s : PathSegment) : sizeOf s.ident < sizeOf s := by
  obtain ⟨i, a⟩ := s
  simp
  omega

theorem sizeOf_from_type_lt {t : SynType} {ft : FieldType}
    (h : FieldType.from_type t = some ft) : sizeOf ft < 4 + sizeOf t := by
  cases t with
  | other =>
    simp [FieldType.from_type] at h
    subst h
    simp
  | array e n =>
    simp [FieldType.from_type] at h
    subst h
    simp
  | path segs =>
    cases segs with
    | nil =>
      simp [FieldType.from_type] at h
      subst h
      simp
    | cons seg0 rest =>
      obtain ⟨id0, pargs0⟩ := seg0
      rw [FieldType.from_type] at h
      have hlast := sizeOf_ident_lt
        ((⟨id0, pargs0⟩ :: rest).getLast (List.cons_ne_nil ⟨id0, pargs0⟩ rest))
      have hmem : ((⟨id0, pargs0⟩ :: rest).getLast (List.cons_ne_nil ⟨id0, pargs0⟩ rest))
          ∈ (⟨id0, pargs0⟩ :: rest : List PathSegment) := List.getLast_mem _
      have h1 := List.sizeOf_lt_of_mem hmem
      split at h
      all_goals (try (cases h; simp; all_goals omega))
      · -- "Vec"
        cases pargs0 with
        | none => exact absurd h (by simp)
        | parenthesized => exact absurd h (by simp)
        | angleBracketed args =>
          cases args with
          | nil => exact absurd h (by simp)
          | cons a0 atl =>
            cases a0 with
            | other => exact absurd h (by simp)
            | type inner =>
              cases h
              simp
              all_goals omega
      · -- "Option"
        cases pargs0 with
        | none => exact absurd h (by simp)
        | parenthesized => exact absurd h (by simp)
        | angleBracketed args =>
          cases h
          simp
          all_goals omega
      · -- default branch: Unhandled with the last segment identifier
        cases h
        simp only [List.cons.sizeOf_spec] at h1
        simp at hlast h1 ⊢
        omega

/-- `GetType::from_field_type` from `src/generate.rs` (lines 41–75).
For `Option_` with exactly one argument which is a type, the inner type is
classified recursively; a `Copy_` result collapses the getter to `Copy_`.
A panic in the recursive `FieldType::from_type` call propagates as `none`. -/
def GetType.from_field_type : FieldType → Option GetType
  | FieldType.Number | FieldType.Boolean | FieldType.Character => some GetType.Copy_
  | FieldType.String_ => some GetType.String_
  | FieldType.Array elem _ => some (GetType.Slice elem)
  | FieldType.Vector inner => some (GetType.Slice inner)
  | FieldType.Option_ args =>
    match args with
    | [GenArg.type t] =>
      match hft : FieldType.from_type t with
      | Option.none => Option.none
      | some ft =>
        match GetType.from_field_type ft with
        | some GetType.Copy_ => some GetType.Copy_
        | some _ => some (GetType.Option_ args)
        | Option.none => Option.none
    | _ => some (GetType.Option_ args)
  | FieldType.Unhandled _ => some GetType.Ref
termination_by ft => sizeOf ft
decreasing_by
  have := sizeOf_from_type_lt hft
  simp
  omega

/-- Unfolding equation for the getter selector at an `Option_` whose argument
list is exactly one type argument. -/
theorem gft_option_single (t : SynType) :
    GetType.from_field_type (FieldType.Option_ [GenArg.type t]) =
      match FieldType.from_type t with
      | Option.none => Option.none
      | some ft =>
        match GetType.from_field_type ft with
        | some GetType.Copy_ => some GetType.Copy_
        | some _ => some (GetType.Option_ [GenArg.type t])
        | Option.none => Option.none := by
  rw [GetType.from_field_type]
  rcases h : FieldType.from_type t with _ | ft <;> simp [h]

theorem gft_number : GetType.from_field_type FieldType.Number = some GetType.Copy_ := by
  simp [GetType.from_field_type]

theorem gft_boolean : GetType.from_field_type FieldType.Boolean = some GetType.Copy_ := by
  simp [GetType.from_field_type]

theorem gft_character : GetType.from_field_type FieldType.Character = some GetType.Copy_ := by
  simp [GetType.from_field_type]

theorem gft_string : GetType.from_field_type FieldType.String_ = some GetType.String_ := by
  simp [GetType.from_field_type]

theorem gft_array (e : SynType) (n : Nat) :
    GetType.from_field_type (FieldType.Array e n) = some (GetType.Slice e) := by
  simp [GetType.from_field_type]

theorem gft_vector (e : SynType) :
    GetType.from_field_type (FieldType.Vector e) = some (GetType.Slice e) := by
  simp [GetType.from_field_type]

theorem gft_unhandled (n : Option String) :
    GetType.from_field_type (FieldType.Unhandled n) = some GetType.Ref := by
  simp [GetType.from_field_type]

/-- The getter selector leaves every `Option_` whose argument list is not a
single type argument at `Option_` over the full raw argument list. -/
theorem gft_option_other (args : List GenericArgument) (h : ∀ t, args ≠ [GenArg.type t]) :
    GetType.from_field_type (FieldType.Option_ args) = some (GetType.Option_ args) := by
  match args with
  | [] =>
    rw [GetType.from_field_type]
    simp
  | [GenArg.type t] => exact absurd rfl (h t)
  | [GenArg.other] =>
    rw [GetType.from_field_type]
    simp
  | a :: b :: tl =>
    rw [GetType.from_field_type]
    rcases a with t | _ <;> simp

/-- `ClrMethod` from `src/generate.rs`: the clear-method strategy. -/
inductive ClrMethod where
  | SetZero
  | SetNone
  | SetDefault
  | CallClear
  | FillWithDefault
  | None_
deriving Repr, DecidableEq

/-- `ClrMethod::from_field_type` from `src/generate.rs` (lines 78–93): the
natural (scope-uninfluenced) clear strategy of a category. -/
def ClrMethod.from_field_type : FieldType → ClrMethod
  | FieldType.Number => ClrMethod.SetZero
  | FieldType.Option_ _ => ClrMethod.SetNone
  | FieldType.Boolean | FieldType.Character => ClrMethod.SetDefault
  | FieldType.String_ | FieldType.Vector _ => ClrMethod.CallClear
  | FieldType.Array _ _ => ClrMethod.FillWithDefault
  | FieldType.Unhandled (some type_name) =>
    match type_name with
    | "String" | "PathBuf" | "Vec" | "VecDeque" | "LinkedList" | "HashMap"
    | "BTreeMap" | "HashSet" | "BTreeSet" | "BinaryHeap" => ClrMethod.CallClear
    | _ => ClrMethod.None_
  | FieldType.Unhandled Option.none => ClrMethod.None_

/-- The ten collection-like identifiers whose `Unhandled` categories get a
`CallClear` strategy (the literals of the match in `ClrMethod::from_field_type`). -/
def clrWhitelist : List String :=
  ["String", "PathBuf", "Vec", "VecDeque", "LinkedList", "HashMap",
   "BTreeMap", "HashSet", "BTreeSet", "BinaryHeap"]

/-- `ClrScopeConf` from `src/parse.rs` as used by `src/lib.rs`: the clear-scope
configuration (`auto`, `option-only`, `all`). -/
inductive ClrScopeConf where
  | Auto
  | Option_
  | All
deriving Repr, DecidableEq

/-- The clear-strategy adjustment performed in `derive_property_for_field`
(`src/lib.rs` lines 330–347): scope `auto` keeps the natural strategy,
`option-only` keeps it only when it is `SetNone`, `all` upgrades `None_`
to `SetDefault`. -/
def clr_method_selected (scope : ClrScopeConf) (ft : FieldType) : ClrMethod :=
  let auto_clr_method := ClrMethod.from_field_type ft
  match scope with
  | ClrScopeConf.Auto => auto_clr_method
  | ClrScopeConf.Option_ =>
    if auto_clr_method = ClrMethod.SetNone then auto_clr_method else ClrMethod.None_
  | ClrScopeConf.All =>
    if auto_clr_method = ClrMethod.None_ then ClrMethod.SetDefault else auto_clr_method

/-- The clear-method emission in `derive_property_for_field` (`src/lib.rs`
lines 348–375): every strategy except `None_` produces a method body;
`None_` produces `None` — the method is silently omitted, no error. -/
def clr_method_emitted (scope : ClrScopeConf) (ft : FieldType) : Option ClrMethod :=
  match clr_method_selected scope ft with
  | ClrMethod.None_ => Option.none
  | m => some m

/-- `SetTypeConf` from `src/parse.rs` as used by `src/lib.rs`: the setter
return-shape mode (`Ref` = mutable chain, `Own` = owned chain, `None_` = void,
`Replace` = return prior value). -/
inductive SetTypeConf where
  | Ref
  | Own
  | None_
  | Replace
deriving Repr, DecidableEq

/-- The three value-acceptance shapes a generated setter body can take, from
the match over the field category in `derive_property_for_field`
(`src/lib.rs` lines 213–314). -/
inductive SetBody where
  | vectorBody (inner : SynType)
  | optionWrapBody (args : List GenericArgument)
  | defaultBody
deriving Repr

/-- Which body rule `derive_property_for_field` picks for a setter
(`src/lib.rs` lines 213–314): `Vector` takes the iterator-collecting rule;
`Option_` takes the `Some(val.into())` wrapping rule when `full_option` is
false; everything else (the `_` arm, including `Option_` with `full_option`
set) takes the default `val.into()` rule. -/
def set_body (ft : FieldType) (full_option : Bool) : SetBody :=
  match ft with
  | FieldType.Vector inner => SetBody.vectorBody inner
  | FieldType.Option_ args =>
    if !full_option then SetBody.optionWrapBody args else SetBody.defaultBody
  | _ => SetBody.defaultBody

/-- The field contents after a generated growable-list setter runs
(`src/lib.rs` lines 214–249): in all four modes the body is
`self.field = val.into_iter().map(Into::into).collect()`, modelled with the
conversion `conv` for `Into::into`; `self` is the prior field contents. -/
def vec_set_new_field {T E : Type} (mode : SetTypeConf) (conv : T → E)
    (self : List E) (val : List T) : List E :=
  match mode with
  | SetTypeConf.Ref => val.map conv
  | SetTypeConf.Own => val.map conv
  | SetTypeConf.None_ => val.map conv
  | SetTypeConf.Replace => val.map conv

/-- The value returned by the growable-list setter in `Replace` mode
(`::core::mem::replace`): the prior field contents. -/
def vec_set_replace_ret {E : Type} (self : List E) : List E :=
  self

/-- Model of `syn::Fields`: a unit shape, named fields, or unnamed (tuple)
fields, with the field count. -/
inductive Fields where
  | unit
  | named (n : Nat)
  | unnamed (n : Nat)
deriving Repr, DecidableEq

/-- Model of `syn::Generics` as inspected by `property_default`:
presence of the `<`/`>` tokens, number of parameters, presence of a
`where`-clause. -/
structure GenericsModel where
  lt_token : Bool
  gt_token : Bool
  params : Nat
  where_clause : Bool
deriving Repr, DecidableEq

/-- Model of a `syn::Item::Struct` as inspected by `property_default`:
attribute count, presence of the trailing semicolon, field shape, generics. -/
structure StructItem where
  attrs : Nat
  semi_token : Bool
  fields : Fields
  generics : GenericsModel
deriving Repr, DecidableEq

/-- Model of `syn::Item`: a struct item or any other item kind. -/
inductive ItemModel where
  | struct_ (st : StructItem)
  | otherItem
deriving Repr, DecidableEq

/-- The rejection test of `property_default` (`src/lib.rs` lines 47–57):
an error is raised unless the item is a struct with no attributes, a trailing
semicolon, unit fields, and no generics tokens, parameters or where-clause. -/
def property_default_raise_error : ItemModel → Bool
  | ItemModel.struct_ st =>
    !(st.attrs = 0) || !st.semi_token || !(st.fields = Fields.unit)
      || st.generics.lt_token || st.generics.gt_token
      || !(st.generics.params = 0) || st.generics.where_clause
  | ItemModel.otherItem => true

/-- The diagnostic text of `property_default`'s rejection (`src/lib.rs`
lines 59–65). -/
def property_default_err_msg : String :=
  "Please using a simple unit struct (which will be removed in the macro) to invoke the macro for setting the default attributes"

/-- `property_default` (`src/lib.rs` lines 41–72): on a rejected declaration
it returns only the compile error (no generated code); otherwise it records
the defaults and expands to the empty token stream (modelled as `Unit`). -/
def property_default (item : ItemModel) : Except String Unit :=
  if property_default_raise_error item then
    Except.error property_default_err_msg
  else
    Except.ok ()

/-- The ordering direction of `OrdConf` (`sort_type` in `src/parse.rs`),
as read through `is_ascending()` in `src/lib.rs`. -/
inductive SortType where
  | Asc
  | Desc
deriving Repr, DecidableEq

def SortType.is_ascending : SortType → Bool
  | SortType.Asc => true
  | SortType.Desc => false

/-- The ordinal configuration of a field (`f.conf.ord` in `src/lib.rs`):
an optional serial number and a direction. -/
structure OrdConf where
  number : Option Nat
  sort_type : SortType

/-- Model of one field as `implement_traits` and `derive_property` consume it
(`src/lib.rs`): its skip flag, its generated accessor methods (abstracted as a
list over an arbitrary descriptor type `M`; their synthesis is modelled
separately per accessor), its ordinal configuration, and — over an abstract
record type `V` — the behaviour of the generated per-field comparisons:
`feq self other` models `self.field == other.field` and `fcmp self other`
models `self.field.partial_cmp(&other.field)`. -/
structure FieldModel (V M : Type) where
  skip : Bool
  methods : List M
  ord : OrdConf
  feq : V → V → Bool
  fcmp : V → V → Option Ordering

/-- The ordinal-selected fields paired with their serial numbers: models
`filter(|f| f.conf.ord.number.is_some())` together with the subsequent
`f.conf.ord.number.unwrap()` reads (the filter guarantees every unwrap
succeeds, so filter-then-unwrap is packaged as one `filterMap`). -/
def selectedPairs {V M : Type} (fields : List (FieldModel V M)) :
    List (Nat × FieldModel V M) :=
  fields.filterMap (fun f => f.ord.number.map (fun n => (n, f)))

/-- `ordered.windows(2).any(|f| f[0].number == f[1].number)` from
`src/lib.rs` lines 116–120: an adjacent pair with equal serial numbers. -/
def hasSameSerial {V M : Type} : List (Nat × FieldModel V M) → Bool
  | p :: q :: rest => p.1 == q.1 || hasSameSerial (q :: rest)
  | _ => false

/-- One comparison step of the generated `partial_cmp` (`src/lib.rs` lines
132–143): an ascending field compares `self` to `other`, a descending field
swaps the two operands for its own comparison. -/
def fieldStepCmp {V M : Type} (p : Nat × FieldModel V M) (self other : V) :
    Option Ordering :=
  if p.2.ord.sort_type.is_ascending then p.2.fcmp self other else p.2.fcmp other self

/-- The generated `partial_cmp` body (`src/lib.rs` lines 132–155): one
statement pair per sorted field — compute the (direction-adjusted) comparison,
return it if it is not `Some(Equal)` — followed by the final
`Some(Ordering::Equal)`. -/
def genPcmp {V M : Type} : List (Nat × FieldModel V M) → V → V → Option Ordering
  | [], _, _ => some Ordering.eq
  | p :: rest, self, other =>
    let result := fieldStepCmp p self other
    if result ≠ some Ordering.eq then result else genPcmp rest self other

/-- The generated `eq` body (`src/lib.rs` lines 124–131): the `&&`-chain of
the per-field equality checks over the sorted fields. -/
def genEq {V M : Type} (l : List (Nat × FieldModel V M)) (self other : V) : Bool :=
  l.all (fun p => p.2.feq self other)

/-- The pair of trait bodies `implement_traits` emits: the `PartialEq::eq`
body and the `PartialOrd::partial_cmp` body. -/
inductive TraitImpls (V : Type) where
  | impls (eq : V → V → Bool) (pcmp : V → V → Option Ordering)

/-- `implement_traits` from `src/lib.rs` (lines 101–160): select the fields
with a serial number; if none, emit nothing; otherwise sort them ascending by
serial number (`sort_by` with `n1.cmp(&n2)`, modelled by `mergeSort`), abort
with the panic message if two adjacent sorted fields share a serial number,
and otherwise emit the equality and ordering bodies over the sorted fields. -/
def implement_traits {V M : Type} (fields : List (FieldModel V M)) :
    Except String (Option (TraitImpls V)) :=
  let ordered := selectedPairs fields
  if ordered.isEmpty then
    Except.ok Option.none
  else
    let sorted := ordered.mergeSort (fun p q => p.1 ≤ q.1)
    if hasSameSerial sorted then
      Except.error "there are at least two fields that have same serial number"
    else
      Except.ok (some (TraitImpls.impls (genEq sorted) (genPcmp sorted)))

/-- `derive_property` from `src/lib.rs` (lines 76–99): concatenate the
accessor methods of every non-skipped field, then append the trait
implementations if any; a panic inside `implement_traits` aborts the whole
expansion, producing no output at all. -/
def derive_property {V M : Type} (fields : List (FieldModel V M)) :
    Except String (List M × Option (TraitImpls V)) :=
  let methods := fields.foldl (fun r f => if !f.skip then r ++ f.methods else r) []
  match implement_traits fields with
  | Except.error e => Except.error e
  | Except.ok t => Except.ok (methods, t)

/-- The natural clear strategy of an `Unhandled` category with a present
identifier as a whitelist test. -/
theorem clr_unhandled_eq (name : String) :
    ClrMethod.from_field_type (FieldType.Unhandled (some name)) =
      if name ∈ clrWhitelist then ClrMethod.CallClear else ClrMethod.None_ := by
  by_cases hm : name ∈ clrWhitelist
  · simp only [clrWhitelist, List.mem_cons, List.not_mem_nil, or_false] at hm
    rcases hm with rfl | rfl | rfl | rfl | rfl | rfl | rfl | rfl | rfl | rfl <;> rfl
  · rw [if_neg hm]
    simp only [clrWhitelist, List.mem_cons, List.not_mem_nil, or_false] at hm
    push_neg at hm
    simp only [ClrMethod.from_field_type]
    split
    all_goals simp_all

/-- C5: for every category and every clear-scope setting, the selected clear
strategy is the natural mapping under `auto`; under `optional-only`, the
natural result when it is `SetNone` and `None_` otherwise; under `all`,
`SetDefault` when the natural result is `None_` and the natural result
otherwise. -/
theorem clr_scope_selection (ft : FieldType) :
    clr_method_selected ClrScopeConf.Auto ft = ClrMethod.from_field_type ft
    ∧ clr_method_selected ClrScopeConf.Option_ ft =
        (if ClrMethod.from_field_type ft = ClrMethod.SetNone then ClrMethod.SetNone
         else ClrMethod.None_)
    ∧ clr_method_selected ClrScopeConf.All ft =
        (if ClrMethod.from_field_type ft = ClrMethod.None_ then ClrMethod.SetDefault
         else ClrMethod.from_field_type ft) := by
  refine ⟨rfl, ?_, rfl⟩
  unfold clr_method_selected
  split <;> simp_all

/-- C8: an `Unhandled` category with a present identifier gets the
`CallClear` strategy exactly for the ten whitelisted collection identifiers,
and every non-whitelisted identifier gets `None_`; an absent identifier gets
`None_`; and a selected `None_` strategy omits the clear method silently
(no error). -/
theorem clr_unhandled_whitelist :
    (∀ name : String,
      (ClrMethod.from_field_type (FieldType.Unhandled (some name)) = ClrMethod.CallClear
        ↔ name ∈ clrWhitelist)
      ∧ (name ∉ clrWhitelist →
          ClrMethod.from_field_type (FieldType.Unhandled (some name)) = ClrMethod.None_))
    ∧ ClrMethod.from_field_type (FieldType.Unhandled Option.none) = ClrMethod.None_
    ∧ (∀ (scope : ClrScopeConf) (ft : FieldType),
        clr_method_selected scope ft = ClrMethod.None_ →
        clr_method_emitted scope ft = Option.none) := by
  refine ⟨fun name => ⟨?_, fun hm => ?_⟩, rfl, fun scope ft h => ?_⟩
  · rw [clr_unhandled_eq]
    by_cases hm : name ∈ clrWhitelist <;> simp [hm]
  · rw [clr_unhandled_eq, if_neg hm]
  · unfold clr_method_emitted
    rw [h]

/-- C4 counterexample: an `Optional` category whose raw argument list has two
arguments (not exactly one) still takes the bare-value wrapping rule when the
full-option flag is false — it does not fall through to the default rule as
the claim states. -/
theorem set_body_option_two_args :
    set_body (FieldType.Option_ [GenArg.other, GenArg.other]) false
        = SetBody.optionWrapBody [GenArg.other, GenArg.other]
    ∧ set_body (FieldType.Option_ [GenArg.other, GenArg.other]) false
        ≠ SetBody.defaultBody := by
  exact ⟨rfl, by simp [set_body]⟩

/-- C4 (amended): for an `Optional` field the bare-value wrapping rule is
selected exactly when the full-option flag is false — the wrapper's argument
count is not consulted; when the flag is true the setter falls through to the
default rule. -/
theorem set_body_option (args : List GenericArgument) (full_option : Bool) :
    set_body (FieldType.Option_ args) full_option =
      (if full_option then SetBody.defaultBody else SetBody.optionWrapBody args) := by
  cases full_option <;> rfl

/-- C6: evaluating the classifier at the field type `Vec` (a growable-list
name with no angle-bracketed arguments) hits the `unreachable!()` arm —
modelled as `none` — instead of returning a category. -/
theorem from_type_vec_bare :
    FieldType.from_type (SynType.path [⟨"Vec", PathArgs.none⟩]) = Option.none := rfl

/-- C7: for every set-mode, the generated growable-list setter replaces the
field's entire contents with the converted input in input order, regardless of
the prior contents, and running it twice with the same input leaves the field
as after one run. -/
theorem vec_set_replaces {T E : Type} :
    ∀ (mode : SetTypeConf) (conv : T → E) (self : List E) (val : List T),
      vec_set_new_field mode conv self val = val.map conv
      ∧ vec_set_new_field mode conv (vec_set_new_field mode conv self val) val
          = vec_set_new_field mode conv self val := by
  intro mode conv self val
  cases mode <;> exact ⟨rfl, rfl⟩

/-- C9 counterexample: a placeholder declaration with exactly one (tuple)
marker field — `struct P(u8);`: no attributes, no generics, trailing
semicolon — is rejected by `property_default`, though the claim says a shape
with exactly one marker field is accepted. -/
theorem property_default_one_field_rejected :
    property_default_raise_error
        (ItemModel.struct_ ⟨0, true, Fields.unnamed 1, ⟨false, false, 0, false⟩⟩) = true
    ∧ property_default
        (ItemModel.struct_ ⟨0, true, Fields.unnamed 1, ⟨false, false, 0, false⟩⟩)
        = Except.error property_default_err_msg := by
  exact ⟨rfl, rfl⟩

/-- C9 (amended): `property_default` accepts exactly the attribute-free,
generic-free unit-struct declarations with a trailing semicolon (zero fields);
every other declaration is rejected with the diagnostic and produces no
generated code. -/
theorem property_default_acceptance (item : ItemModel) :
    (property_default_raise_error item = false ↔
      ∃ st : StructItem, item = ItemModel.struct_ st ∧ st.attrs = 0
        ∧ st.semi_token = true ∧ st.fields = Fields.unit
        ∧ st.generics.lt_token = false ∧ st.generics.gt_token = false
        ∧ st.generics.params = 0 ∧ st.generics.where_clause = false)
    ∧ (property_default_raise_error item = true →
        property_default item = Except.error property_default_err_msg) := by
  constructor
  · cases item with
    | otherItem => simp [property_default_raise_error]
    | struct_ st =>
      simp only [property_default_raise_error, ItemModel.struct_.injEq]
      constructor
      · intro h
        refine ⟨st, rfl, ?_⟩
        simp at h
        tauto
      · rintro ⟨st', rfl, h⟩
        simp
        tauto
  · intro h
    simp [property_default, h]

/-- C1 counterexample: the Optional field `Option<Vec>` (single type argument
whose own classification panics) is an "other" Optional field — its argument
does not classify to a by-copy getter — yet auto getter selection does not
produce `AsOptionalReference`; it propagates the classifier panic. -/
theorem get_option_inner_panic :
    GetType.from_field_type
        (FieldType.Option_ [GenArg.type (SynType.path [⟨"Vec", PathArgs.none⟩])])
      = Option.none
    ∧ GetType.from_field_type
        (FieldType.Option_ [GenArg.type (SynType.path [⟨"Vec", PathArgs.none⟩])])
      ≠ some (GetType.Option_ [GenArg.type (SynType.path [⟨"Vec", PathArgs.none⟩])]) := by
  have h : GetType.from_field_type
      (FieldType.Option_ [GenArg.type (SynType.path [⟨"Vec", PathArgs.none⟩])])
      = Option.none := by
    rw [gft_option_single]
    rfl
  exact ⟨h, by rw [h]; simp⟩

/-- C1 (amended): in auto mode, an `Option_` field whose raw argument list is
exactly one type argument collapses to a by-copy getter when that argument
recursively classifies (classifier, then auto getter selection) to `Copy_`;
when the argument classifies to any non-copy getter the shape is `Option_`
over the full raw argument list, as it is for every argument list that is not
a single type argument; and when the argument's classification panics, getter
selection panics as well. -/
theorem get_option_selection (args : List GenericArgument) :
    (∀ t : SynType, args = [GenArg.type t] →
      ((FieldType.from_type t).bind GetType.from_field_type = some GetType.Copy_ →
        GetType.from_field_type (FieldType.Option_ args) = some GetType.Copy_)
      ∧ (∀ g : GetType, (FieldType.from_type t).bind GetType.from_field_type = some g →
          g ≠ GetType.Copy_ →
          GetType.from_field_type (FieldType.Option_ args) = some (GetType.Option_ args))
      ∧ ((FieldType.from_type t).bind GetType.from_field_type = Option.none →
          GetType.from_field_type (FieldType.Option_ args) = Option.none))
    ∧ ((∀ t : SynType, args ≠ [GenArg.type t]) →
        GetType.from_field_type (FieldType.Option_ args) = some (GetType.Option_ args)) := by
  refine ⟨fun t ht => ?_, gft_option_other args⟩
  subst ht
  rw [gft_option_single]
  rcases hb : FieldType.from_type t with _ | ft
  · exact ⟨fun hc => by simp at hc, fun g hg => by simp at hg, fun _ => rfl⟩
  · refine ⟨fun hc => ?_, fun g hg hne => ?_, fun hn => ?_⟩
    · simp only [Option.some_bind] at hc
      simp only [hc]
    · simp only [Option.some_bind] at hg
      simp only [hg]
    · simp only [Option.some_bind] at hn
      simp only [hn]

/-- C1 witness: `Option<u64>` collapses to a by-copy getter; `Option<String>`
stays an optional reference over the raw argument list. -/
theorem get_option_selection_witness :
    GetType.from_field_type
        (FieldType.Option_ [GenArg.type (SynType.path [⟨"u64", PathArgs.none⟩])])
      = some GetType.Copy_
    ∧ GetType.from_field_type
        (FieldType.Option_ [GenArg.type (SynType.path [⟨"String", PathArgs.none⟩])])
      = some (GetType.Option_ [GenArg.type (SynType.path [⟨"String", PathArgs.none⟩])]) := by
  constructor
  · exact ((get_option_selection _).1 _ rfl).1 gft_number
  · exact ((get_option_selection _).1 _ rfl).2.1 GetType.String_ gft_string (by simp)

/-- The identifiers that select a non-default arm of the classifier's match on
the first path segment (the literal patterns of `FieldType::from_type`). -/
def classifierHeadIdents : List String :=
  ["f32", "f64", "i8", "i16", "i32", "i64", "i128", "isize",
   "u8", "u16", "u32", "u64", "u128", "usize",
   "bool", "char", "String", "Vec", "Option"]

/-- C10: a multi-segment path whose first segment's identifier is not one of
the classifier's recognized names is classified `Unhandled` with the last
segment's identifier — never `Number`, `Boolean`, `Character`, `String_`,
`Vector` or `Option_` — so its auto getter is by-reference, while its clear
strategy is `CallClear` exactly when the last segment's identifier is in the
collection whitelist. -/
theorem qualified_path_classification (seg0 : PathSegment) (rest : List PathSegment)
    (hr : rest ≠ []) (hid : seg0.ident ∉ classifierHeadIdents) :
    FieldType.from_type (SynType.path (seg0 :: rest))
        = some (FieldType.Unhandled
            (some ((seg0 :: rest).getLast (List.cons_ne_nil seg0 rest)).ident))
    ∧ GetType.from_field_type
        (FieldType.Unhandled
          (some ((seg0 :: rest).getLast (List.cons_ne_nil seg0 rest)).ident))
        = some GetType.Ref
    ∧ (ClrMethod.from_field_type
        (FieldType.Unhandled
          (some ((seg0 :: rest).getLast (List.cons_ne_nil seg0 rest)).ident))
          = ClrMethod.CallClear
        ↔ ((seg0 :: rest).getLast (List.cons_ne_nil seg0 rest)).ident ∈ clrWhitelist) := by
  refine ⟨?_, gft_unhandled _, ?_⟩
  · simp only [classifierHeadIdents, List.mem_cons, List.not_mem_nil, or_false] at hid
    push_neg at hid
    rw [FieldType.from_type]
    split <;> simp_all
  · rw [clr_unhandled_eq]
    by_cases hm : ((seg0 :: rest).getLast (List.cons_ne_nil seg0 rest)).ident ∈ clrWhitelist
      <;> simp [hm]

/-- C10 witness: `std::collections::HashMap` is classified `Unhandled` with
identifier `HashMap`, gets a by-reference getter, and its clear strategy hits
the collection whitelist via the last-segment name. -/
theorem qualified_path_classification_witness :
    (([⟨"collections", PathArgs.none⟩, ⟨"HashMap", PathArgs.none⟩] : List PathSegment) ≠ [])
    ∧ (⟨"std", PathArgs.none⟩ : PathSegment).ident ∉ classifierHeadIdents
    ∧ (FieldType.from_type (SynType.path [⟨"std", PathArgs.none⟩,
          ⟨"collections", PathArgs.none⟩, ⟨"HashMap", PathArgs.none⟩])
        = some (FieldType.Unhandled (some "HashMap"))
      ∧ GetType.from_field_type (FieldType.Unhandled (some "HashMap")) = some GetType.Ref
      ∧ (ClrMethod.from_field_type (FieldType.Unhandled (some "HashMap"))
            = ClrMethod.CallClear
          ↔ ("HashMap" : String) ∈ clrWhitelist)) :=
  ⟨List.cons_ne_nil _ _, by decide,
    qualified_path_classification ⟨"std", PathArgs.none⟩
      [⟨"collections", PathArgs.none⟩, ⟨"HashMap", PathArgs.none⟩]
      (List.cons_ne_nil _ _) (by decide)⟩

/-- The generated `partial_cmp` yields `Some(Equal)` exactly when every field
of the statement list compares (direction-adjusted) equal. -/
theorem genPcmp_eq_iff {V M : Type} :
    ∀ (l : List (Nat × FieldModel V M)) (self other : V),
      genPcmp l self other = some Ordering.eq ↔
        ∀ p ∈ l, fieldStepCmp p self other = some Ordering.eq := by
  intro l self other
  induction l with
  | nil => simp [genPcmp]
  | cons p rest ih =>
    by_cases hp : fieldStepCmp p self other = some Ordering.eq
    · simp [genPcmp, hp, ih]
    · simp [genPcmp, hp]

/-- The generated `partial_cmp` returns at the first field whose
direction-adjusted comparison is not `Some(Equal)`. -/
theorem genPcmp_short_circuit {V M : Type} :
    ∀ (pre : List (Nat × FieldModel V M)) (p : Nat × FieldModel V M)
      (post : List (Nat × FieldModel V M)) (self other : V),
      (∀ q ∈ pre, fieldStepCmp q self other = some Ordering.eq) →
      fieldStepCmp p self other ≠ some Ordering.eq →
      genPcmp (pre ++ p :: post) self other = fieldStepCmp p self other := by
  intro pre p post self other hpre hp
  induction pre with
  | nil => simp [genPcmp, hp]
  | cons q pre' ih =>
    have hq : fieldStepCmp q self other = some Ordering.eq :=
      hpre q (List.mem_cons_self q pre')
    simp only [List.cons_append, genPcmp, hq]
    simp only [ne_eq, not_true_eq_false, if_neg, ite_false, not_not]
    exact ih (fun r hr => hpre r (List.mem_cons_of_mem q hr))

/-- A list whose serial numbers are pairwise distinct has no adjacent pair of
equal serial numbers. -/
theorem hasSameSerial_eq_false_of_nodup {V M : Type} :
    ∀ l : List (Nat × FieldModel V M), (l.map Prod.fst).Nodup →
      hasSameSerial l = false := by
  intro l hnd
  induction l with
  | nil => rfl
  | cons p rest ih =>
    cases rest with
    | nil => rfl
    | cons q rest' =>
      rw [List.map_cons, List.nodup_cons] at hnd
      obtain ⟨hpnot, hndtail⟩ := hnd
      have hne : p.1 ≠ q.1 := by
        intro h
        exact hpnot (by simp [h])
      have htail := ih hndtail
      simp [hasSameSerial, htail, hne]

/-- Over a list sorted (weakly) by serial number, the adjacent-pair duplicate
test is complete: if it reports no duplicate, the serial numbers are pairwise
distinct. -/
theorem nodup_of_sorted_hasSameSerial_false {V M : Type} :
    ∀ l : List (Nat × FieldModel V M),
      List.Pairwise (fun p q => p.1 ≤ q.1) l → hasSameSerial l = false →
      (l.map Prod.fst).Nodup := by
  intro l hsort hss
  induction l with
  | nil => simp
  | cons p rest ih =>
    cases rest with
    | nil => simp
    | cons q rest' =>
      simp only [hasSameSerial, Bool.or_eq_false_iff] at hss
      have hne : p.1 ≠ q.1 := by simpa using hss.1
      have hle : p.1 ≤ q.1 := (List.pairwise_cons.mp hsort).1 q (List.mem_cons_self q rest')
      have htail : List.Pairwise (fun p q : Nat × FieldModel V M => p.1 ≤ q.1) (q :: rest') :=
        (List.pairwise_cons.mp hsort).2
      have hqrest : ∀ r ∈ rest', q.1 ≤ r.1 :=
        fun r hr => (List.pairwise_cons.mp htail).1 r hr
      have hndtail : ((q :: rest').map Prod.fst).Nodup := ih htail hss.2
      simp only [List.map_cons, List.nodup_cons, List.mem_cons, List.mem_map]
      refine ⟨?_, by simpa using hndtail⟩
      rintro (h | ⟨r, hr, hrp⟩)
      · exact hne h
      · have h1 : p.1 < q.1 := lt_of_le_of_ne hle hne
        have h2 : q.1 ≤ r.1 := hqrest r hr
        omega

/-- `sort_by` with `n1.cmp(&n2)` (modelled by `mergeSort` on the serial
numbers) yields a list weakly sorted by serial number. -/
theorem pairwise_le_mergeSort {α : Type} (key : α → Nat) (l : List α) :
    List.Pairwise (fun p q => key p ≤ key q)
      (l.mergeSort (fun p q => key p ≤ key q)) := by
  refine List.Pairwise.imp (fun hab => of_decide_eq_true hab)
    (List.sorted_mergeSort ?_ ?_ l)
  · intro a b c hab hbc
    simp only [decide_eq_true_eq] at *
    omega
  · intro a b
    simp [Nat.le_total]

/-- C3: when two ordinal-selected fields carry the same serial number, the
whole derive aborts with the duplicate-serial panic message: no methods and no
trait implementations are produced for the record. -/
theorem derive_aborts_on_duplicate_serial {V M : Type}
    (fields : List (FieldModel V M))
    (h : ¬ ((selectedPairs fields).map Prod.fst).Nodup) :
    derive_property fields =
      Except.error "there are at least two fields that have same serial number" := by
  have hne : (selectedPairs fields).isEmpty = false := by
    cases hsp : selectedPairs fields with
    | nil => exact absurd (by simp [hsp]) h
    | cons a l => rfl
  have hdup : hasSameSerial
      ((selectedPairs fields).mergeSort (fun p q => p.1 ≤ q.1)) = true := by
    by_contra hfalse
    rw [Bool.not_eq_true] at hfalse
    have hsorted := pairwise_le_mergeSort
      (Prod.fst : Nat × FieldModel V M → Nat) (selectedPairs fields)
    have hnd := nodup_of_sorted_hasSameSerial_false _ hsorted hfalse
    have hperm : ((selectedPairs fields).mergeSort (fun p q => p.1 ≤ q.1)).Perm
        (selectedPairs fields) := List.mergeSort_perm _ _
    exact h (((hperm.map Prod.fst).nodup_iff).mp hnd)
  have himpl : implement_traits fields =
      Except.error "there are at least two fields that have same serial number" := by
    simp only [implement_traits, hne, Bool.false_eq_true, if_false, hdup, if_true]
  simp only [derive_property, himpl]

/-- C3 witness: concrete record with two ordinal-selected fields both carrying
serial number 1. -/
theorem derive_aborts_on_duplicate_serial_witness :
    (¬ (((selectedPairs
        [(⟨false, [], ⟨some 1, SortType.Asc⟩, fun _ _ => true, fun _ _ => some Ordering.eq⟩ :
            FieldModel Nat Unit),
         ⟨false, [], ⟨some 1, SortType.Desc⟩, fun _ _ => true, fun _ _ => some Ordering.eq⟩]).map
          Prod.fst).Nodup))
    ∧ derive_property
        [(⟨false, [], ⟨some 1, SortType.Asc⟩, fun _ _ => true, fun _ _ => some Ordering.eq⟩ :
            FieldModel Nat Unit),
         ⟨false, [], ⟨some 1, SortType.Desc⟩, fun _ _ => true, fun _ _ => some Ordering.eq⟩]
        = Except.error "there are at least two fields that have same serial number" := by
  have h : ¬ (((selectedPairs
      [(⟨false, [], ⟨some 1, SortType.Asc⟩, fun _ _ => true, fun _ _ => some Ordering.eq⟩ :
          FieldModel Nat Unit),
       ⟨false, [], ⟨some 1, SortType.Desc⟩, fun _ _ => true, fun _ _ => some Ordering.eq⟩]).map
        Prod.fst).Nodup) := by
    simp [selectedPairs]
  exact ⟨h, derive_aborts_on_duplicate_serial _ h⟩

/-- C2: for a record with at least one ordinal-selected field, all serial
numbers pairwise distinct, `implement_traits` emits equality and ordering
bodies over a sorted field list that is a permutation of the selected fields
in strictly ascending serial-number order; each field's comparison step swaps
its operands exactly when the field is descending; the overall comparison is
`Some(Equal)` iff every selected field's step compares equal; and the
comparison returns at the first sorted field whose step is not `Some(Equal)`. -/
theorem implement_traits_ordering {V M : Type} (fields : List (FieldModel V M))
    (hne : (selectedPairs fields).isEmpty = false)
    (hnd : ((selectedPairs fields).map Prod.fst).Nodup) :
    ∃ sorted : List (Nat × FieldModel V M),
      implement_traits fields
          = Except.ok (some (TraitImpls.impls (genEq sorted) (genPcmp sorted)))
      ∧ sorted.Perm (selectedPairs fields)
      ∧ List.Pairwise (fun p q => p.1 < q.1) sorted
      ∧ (∀ (p : Nat × FieldModel V M) (self other : V),
          fieldStepCmp p self other =
            (if p.2.ord.sort_type.is_ascending then p.2.fcmp self other
             else p.2.fcmp other self))
      ∧ (∀ self other : V,
          genPcmp sorted self other = some Ordering.eq ↔
            ∀ p ∈ selectedPairs fields, fieldStepCmp p self other = some Ordering.eq)
      ∧ (∀ (pre : List (Nat × FieldModel V M)) (p : Nat × FieldModel V M)
            (post : List (Nat × FieldModel V M)) (self other : V),
          sorted = pre ++ p :: post →
          (∀ q ∈ pre, fieldStepCmp q self other = some Ordering.eq) →
          fieldStepCmp p self other ≠ some Ordering.eq →
          genPcmp sorted self other = fieldStepCmp p self other) := by
  refine ⟨(selectedPairs fields).mergeSort (fun p q => p.1 ≤ q.1), ?_⟩
  have hperm : ((selectedPairs fields).mergeSort (fun p q => p.1 ≤ q.1)).Perm
      (selectedPairs fields) := List.mergeSort_perm _ _
  have hndL : ((((selectedPairs fields).mergeSort (fun p q => p.1 ≤ q.1))).map
      Prod.fst).Nodup := ((hperm.map Prod.fst).nodup_iff).mpr hnd
  have hss : hasSameSerial ((selectedPairs fields).mergeSort (fun p q => p.1 ≤ q.1))
      = false := hasSameSerial_eq_false_of_nodup _ hndL
  refine ⟨?_, hperm, ?_, fun p self other => rfl, ?_, ?_⟩
  · simp only [implement_traits, hne, Bool.false_eq_true, if_false, hss]
  · have hle := pairwise_le_mergeSort
      (Prod.fst : Nat × FieldModel V M → Nat) (selectedPairs fields)
    have hneq : List.Pairwise (fun p q : Nat × FieldModel V M => p.1 ≠ q.1)
        ((selectedPairs fields).mergeSort (fun p q => p.1 ≤ q.1)) :=
      List.pairwise_map.mp hndL
    exact List.Pairwise.imp₂ (fun a b h1 h2 => lt_of_le_of_ne h1 h2) hle hneq
  · intro self other
    rw [genPcmp_eq_iff]
    constructor
    · intro hall p hp
      exact hall p (hperm.mem_iff.mpr hp)
    · intro hall p hp
      exact hall p (hperm.mem_iff.mp hp)
  · intro pre p post self other hsplit hpre hp
    rw [hsplit]
    exact genPcmp_short_circuit pre p post self other hpre hp

/-- Concrete record for the ordering witness: three ordinal-selected fields
with serial numbers 2 (descending), 1 (ascending), 3 (ascending), each
comparing an `Int` projection. -/
def ordWitnessFields : List (FieldModel Int Unit) :=
  [⟨false, [], ⟨some 2, SortType.Desc⟩, fun a b => a == b, fun a b => some (compare a b)⟩,
   ⟨false, [], ⟨some 1, SortType.Asc⟩, fun a b => a == b, fun a b => some (compare a b)⟩,
   ⟨false, [], ⟨some 3, SortType.Asc⟩, fun a b => a == b, fun a b => some (compare a b)⟩]

/-- C2 witness: the ordering synthesis property at the concrete record with
serial numbers {2 descending, 1 ascending, 3 ascending}. -/
theorem implement_traits_ordering_witness :
    (selectedPairs ordWitnessFields).isEmpty = false
    ∧ ((selectedPairs ordWitnessFields).map Prod.fst).Nodup
    ∧ (∃ sorted : List (Nat × FieldModel Int Unit),
        implement_traits ordWitnessFields
            = Except.ok (some (TraitImpls.impls (genEq sorted) (genPcmp sorted)))
        ∧ sorted.Perm (selectedPairs ordWitnessFields)
        ∧ List.Pairwise (fun p q => p.1 < q.1) sorted
        ∧ (∀ (p : Nat × FieldModel Int Unit) (self other : Int),
            fieldStepCmp p self other =
              (if p.2.ord.sort_type.is_ascending then p.2.fcmp self other
               else p.2.fcmp other self))
        ∧ (∀ self other : Int,
            genPcmp sorted self other = some Ordering.eq ↔
              ∀ p ∈ selectedPairs ordWitnessFields,
                fieldStepCmp p self other = some Ordering.eq)
        ∧ (∀ (pre : List (Nat × FieldModel Int Unit)) (p : Nat × FieldModel Int Unit)
              (post : List (Nat × FieldModel Int Unit)) (self other : Int),
            sorted = pre ++ p :: post →
            (∀ q ∈ pre, fieldStepCmp q self other = some Ordering.eq) →
            fieldStepCmp p self other ≠ some Ordering.eq →
            genPcmp sorted self other = fieldStepCmp p self other)) :=
  ⟨rfl, by decide, implement_traits_ordering ordWitnessFields rfl (by decide)⟩

/-- C8 witness: `VecDeque` hits the whitelist and gets `CallClear`; the
non-whitelisted identifier `Foo` gets `None_`, and that `None_` strategy omits
the clear method silently. -/
theorem clr_unhandled_whitelist_witness :
    ClrMethod.from_field_type (FieldType.Unhandled (some "VecDeque")) = ClrMethod.CallClear
    ∧ ("Foo" : String) ∉ clrWhitelist
    ∧ ClrMethod.from_field_type (FieldType.Unhandled (some "Foo")) = ClrMethod.None_
    ∧ clr_method_emitted ClrScopeConf.Auto (FieldType.Unhandled (some "Foo"))
        = Option.none := by
  refine ⟨((clr_unhandled_whitelist.1 "VecDeque").1).mpr (by decide), by decide, ?_, ?_⟩
  · exact (clr_unhandled_whitelist.1 "Foo").2 (by decide)
  · exact clr_unhandled_whitelist.2.2 ClrScopeConf.Auto (FieldType.Unhandled (some "Foo")) rfl

/-- C9 witness: the empty unit-struct placeholder is accepted; a non-struct
item is rejected with the diagnostic and no generated code. -/
theorem property_default_acceptance_witness :
    property_default_raise_error
        (ItemModel.struct_ ⟨0, true, Fields.unit, ⟨false, false, 0, false⟩⟩) = false
    ∧ property_default ItemModel.otherItem = Except.error property_default_err_msg :=
  ⟨(property_default_acceptance
      (ItemModel.struct_ ⟨0, true, Fields.unit, ⟨false, false, 0, false⟩⟩)).1.mpr
      ⟨⟨0, true, Fields.unit, ⟨false, false, 0, false⟩⟩, rfl, rfl, rfl, rfl, rfl, rfl, rfl, rfl⟩,
   (property_default_acceptance ItemModel.otherItem).2 rfl⟩
